import Mathlib

/-
Verification of the volumetric ray-marching renderer in `volume_render.cpp`
(together with `Camera.h`, the `Image` header and the VDB slice writer).

Modelling conventions:
* `float` / `double` arithmetic is modelled over `ℝ` (exact real semantics).
* The one place where IEEE special values are observable — the slab-method
  box intersection, where a zero direction component produces an infinity
  through `1.0f / d` — is modelled with an explicit extended value type
  `FVal` (finite / +inf / -inf / NaN) whose comparisons, `std::max` and
  `std::min` follow the C++ semantics.
* The two `while` loops (primary march, shadow march) are modelled as
  fuel-indexed recursions; the fuel used by `trace` / `traceShadowRay` is
  the ceiling bound that the termination claim (C5) proves sufficient.
  Each loop state carries a ghost iteration counter `steps` / the second
  component of the pair, which instruments the loop without affecting it.
* The OpenVDB grid is out of scope (spec section 6): the density field is an
  opaque sampler `Vec3 → ℝ`, standing for `sampleDensity`, i.e.
  `accessor.getValue(grid->transform().worldToIndexCellCentered(pos))`.
-/

namespace Explosion

noncomputable section

/-- `struct Vec3` of volume_render.cpp (float components, modelled as reals). -/
@[ext]
structure Vec3 where
  x : ℝ
  y : ℝ
  z : ℝ

instance : Add Vec3 := ⟨fun a b => ⟨a.x + b.x, a.y + b.y, a.z + b.z⟩⟩

instance : Sub Vec3 := ⟨fun a b => ⟨a.x - b.x, a.y - b.y, a.z - b.z⟩⟩

/-- `Vec3 operator*(float f)`. -/
instance : HMul Vec3 ℝ Vec3 := ⟨fun a f => ⟨a.x * f, a.y * f, a.z * f⟩⟩

@[simp] theorem Vec3.add_x (a b : Vec3) : (a + b).x = a.x + b.x := rfl

@[simp] theorem Vec3.add_y (a b : Vec3) : (a + b).y = a.y + b.y := rfl

@[simp] theorem Vec3.add_z (a b : Vec3) : (a + b).z = a.z + b.z := rfl

@[simp] theorem Vec3.sub_x (a b : Vec3) : (a - b).x = a.x - b.x := rfl

@[simp] theorem Vec3.sub_y (a b : Vec3) : (a - b).y = a.y - b.y := rfl

@[simp] theorem Vec3.sub_z (a b : Vec3) : (a - b).z = a.z - b.z := rfl

@[simp] theorem Vec3.smul_x (a : Vec3) (f : ℝ) : (a * f).x = a.x * f := rfl

@[simp] theorem Vec3.smul_y (a : Vec3) (f : ℝ) : (a * f).y = a.y * f := rfl

@[simp] theorem Vec3.smul_z (a : Vec3) (f : ℝ) : (a * f).z = a.z * f := rfl

/-- `float Vec3::dot(const Vec3&)`. -/
def Vec3.dot (a b : Vec3) : ℝ := a.x * b.x + a.y * b.y + a.z * b.z

/-- `Vec3 Vec3::cross(const Vec3&)`. -/
def Vec3.cross (a b : Vec3) : Vec3 :=
  ⟨a.y * b.z - a.z * b.y, a.z * b.x - a.x * b.z, a.x * b.y - a.y * b.x⟩

/-- `float Vec3::length()` = `sqrt(x*x + y*y + z*z)`. -/
def Vec3.length (v : Vec3) : ℝ := Real.sqrt (v.x * v.x + v.y * v.y + v.z * v.z)

/-- `Vec3 Vec3::normalize()` = `Vec3(x/l, y/l, z/l)` with `l = length()`. -/
def Vec3.normalize (v : Vec3) : Vec3 :=
  ⟨v.x / v.length, v.y / v.length, v.z / v.length⟩

/-! ### IEEE-style extended values for the slab intersection

`intersectBox` divides `1.0f` by the direction components; a zero component
produces `+inf` (the literal `0.0f` is a positive zero), and a subsequent
multiplication of that infinity by an exact zero would produce a NaN.
`FVal` captures exactly the values and comparisons this computation uses. -/

/-- A float value as used inside `intersectBox`: finite, an infinity or NaN. -/
inductive FVal where
  | fin (q : ℝ)
  | pinf
  | ninf
  | nan
deriving DecidableEq

/-- IEEE `<` on `FVal` (any comparison with NaN is false). -/
def flt : FVal → FVal → Bool
  | FVal.nan, _ => false
  | _, FVal.nan => false
  | FVal.fin a, FVal.fin b => if a < b then true else false
  | FVal.fin _, FVal.pinf => true
  | FVal.fin _, FVal.ninf => false
  | FVal.pinf, _ => false
  | FVal.ninf, FVal.ninf => false
  | FVal.ninf, _ => true

/-- IEEE `<=` on `FVal` (any comparison with NaN is false). -/
def fle : FVal → FVal → Bool
  | FVal.nan, _ => false
  | _, FVal.nan => false
  | FVal.fin a, FVal.fin b => if a ≤ b then true else false
  | FVal.fin _, FVal.pinf => true
  | FVal.fin _, FVal.ninf => false
  | FVal.pinf, FVal.pinf => true
  | FVal.pinf, _ => false
  | FVal.ninf, _ => true

/-- `1.0f / d`: division of one by a finite float; `1/0` is `+inf`. -/
def finv (d : ℝ) : FVal := if d = 0 then FVal.pinf else FVal.fin (1 / d)

/-- Multiplication of a finite float `a` by an `FVal` (IEEE rules:
`0 * inf = NaN`, sign rules for `a * inf`, NaN propagates). -/
def fscale (a : ℝ) : FVal → FVal
  | FVal.fin q => FVal.fin (a * q)
  | FVal.pinf => if 0 < a then FVal.pinf else if a < 0 then FVal.ninf else FVal.nan
  | FVal.ninf => if 0 < a then FVal.ninf else if a < 0 then FVal.pinf else FVal.nan
  | FVal.nan => FVal.nan

/-- `std::max(a, b)` = `a < b ? b : a`. -/
def cppMax (a b : FVal) : FVal := if flt a b then b else a

/-- `std::min(a, b)` = `b < a ? b : a`. -/
def cppMin (a b : FVal) : FVal := if flt b a then b else a

/-- Extract the finite value (junk value 0 on non-finite; the march in
`trace` only ever runs on finite `tMin`, `tMax`). -/
def FVal.toReal : FVal → ℝ
  | FVal.fin q => q
  | _ => 0

/-- Result of `VolumeRenderer::intersectBox` — the returned flag together
with the two out-parameters. -/
structure BoxHit where
  hit : Bool
  tMin : FVal
  tMax : FVal
deriving DecidableEq

/-- `VolumeRenderer::intersectBox`: the slab method, with the box corners
`t0`, `t1` and the ray origin/direction.  Mirrors the source line by line:
inverse direction, per-axis candidates, componentwise max/min, fold, and
the hit test `tMax >= tMin && tMax > 0`. -/
def intersectBox (t0 t1 rayO rayD : Vec3) : BoxHit :=
  let invDirX := finv rayD.x
  let invDirY := finv rayD.y
  let invDirZ := finv rayD.z
  let tMin3x := fscale (t0.x - rayO.x) invDirX
  let tMin3y := fscale (t0.y - rayO.y) invDirY
  let tMin3z := fscale (t0.z - rayO.z) invDirZ
  let tMax3x := fscale (t1.x - rayO.x) invDirX
  let tMax3y := fscale (t1.y - rayO.y) invDirY
  let tMax3z := fscale (t1.z - rayO.z) invDirZ
  let farX := cppMax tMin3x tMax3x
  let farY := cppMax tMin3y tMax3y
  let farZ := cppMax tMin3z tMax3z
  let nearX := cppMin tMin3x tMax3x
  let nearY := cppMin tMin3y tMax3y
  let nearZ := cppMin tMin3z tMax3z
  let tmin := cppMax (cppMax nearX nearY) nearZ
  let tmax := cppMin (cppMin farX farY) farZ
  ⟨fle tmin tmax && flt (FVal.fin 0) tmax, tmin, tmax⟩

/-- Spec-side description (claim C4): the per-axis near parameter of one
slab — the smaller of the two face-intersection parameters. -/
def slabNear (lo hi o : ℝ) (inv : FVal) : FVal :=
  cppMin (fscale (lo - o) inv) (fscale (hi - o) inv)

/-- Spec-side description (claim C4): the per-axis far parameter of one
slab — the larger of the two face-intersection parameters. -/
def slabFar (lo hi o : ℝ) (inv : FVal) : FVal :=
  cppMax (fscale (lo - o) inv) (fscale (hi - o) inv)

/-! ### The shadow march (`VolumeRenderer::traceShadowRay`) -/

/-- The `while (t < 20.0f && transmittance > 0.01f)` loop of
`traceShadowRay`, fuel-indexed.  Arguments after the fuel: current `t`,
current `transmittance`, and a ghost iteration counter.  Returns the final
transmittance and the number of iterations executed. -/
def shadowAux (field : Vec3 → ℝ) (lightDir : Vec3) (step : ℝ) (pos : Vec3) :
    ℕ → ℝ → ℝ → ℕ → ℝ × ℕ
  | 0, _, tr, cnt => (tr, cnt)
  | n + 1, t, tr, cnt =>
    if t < 20 ∧ 1 / 100 < tr then
      shadowAux field lightDir step pos n (t + step)
        (tr * Real.exp (-field (pos + lightDir * t) * step)) (cnt + 1)
    else (tr, cnt)

/-- `VolumeRenderer::traceShadowRay`: marches from `pos` along `lightDir`
(the renderer's stored, normalized light direction) with the same step size
and the same transmittance cutoff as the primary march, up to the fixed
20-world-unit distance cap.  The fuel `⌈20 / step⌉₊` is sufficient for the
loop to exit through its own guard (claim C5). -/
def traceShadowRay (field : Vec3 → ℝ) (lightDir : Vec3) (step : ℝ) (pos : Vec3) : ℝ :=
  (shadowAux field lightDir step pos (Nat.ceil ((20 : ℝ) / step)) 0 1 0).1

/-! ### The primary march (`VolumeRenderer::trace`) -/

/-- `1.0f / (4.0f * M_PI)` — the isotropic phase function constant. -/
def phaseConst : ℝ := 1 / (4 * Real.pi)

/-- Loop state of the primary march: current parameter `t`, running
`transmittance`, accumulated `color`, plus a ghost iteration counter. -/
@[ext]
structure MState where
  t : ℝ
  transmittance : ℝ
  color : Vec3
  steps : ℕ

/-- The `while (t < tMax && transmittance > 0.01f)` loop of
`VolumeRenderer::trace`, fuel-indexed.  Note `Vec3(1.0f)` in the source is
`(1, 0, 0)` (the constructor defaults `y = z = 0`), so the scattered light
is accumulated in the first color channel. -/
def marchAux (field : Vec3 → ℝ) (rayO rayD lightDir : Vec3) (step tMax : ℝ) :
    ℕ → MState → MState
  | 0, s => s
  | n + 1, s =>
    if s.t < tMax ∧ 1 / 100 < s.transmittance then
      let pos := rayO + rayD * s.t
      let density := field pos
      if 0 < density then
        let lightDensity := traceShadowRay field lightDir step pos
        let extinction := density * step
        let trans2 := s.transmittance * Real.exp (-extinction)
        let scattered : Vec3 := (⟨1, 0, 0⟩ : Vec3) * phaseConst * lightDensity
        marchAux field rayO rayD lightDir step tMax n
          ⟨s.t + step, trans2, s.color + scattered * trans2 * extinction, s.steps + 1⟩
      else
        marchAux field rayO rayD lightDir step tMax n
          ⟨s.t + step, s.transmittance, s.color, s.steps + 1⟩
    else s

/-- `VolumeRenderer::trace`: intersect the bounding box (miss returns the
zero radiance `Vec3(0.0f)`), then march from `tMin` toward `tMax`
accumulating color; the fuel `⌈(tMax - tMin) / step⌉₊` is sufficient for
the loop to exit through its own guard (claim C5).  The unused `rng`
parameter of the source is dropped. -/
def trace (field : Vec3 → ℝ) (t0 t1 lightDir : Vec3) (step : ℝ) (rayO rayD : Vec3) : Vec3 :=
  let bh := intersectBox t0 t1 rayO rayD
  if bh.hit then
    let a := bh.tMin.toReal
    let b := bh.tMax.toReal
    (marchAux field rayO rayD lightDir step b (Nat.ceil ((b - a) / step))
      ⟨a, 1, ⟨0, 0, 0⟩, 0⟩).color
  else ⟨0, 0, 0⟩

/-! ### Cameras -/

/-- The camera of volume_render.cpp after construction: position and the
three stored basis vectors (`right` and `up` are stored pre-scaled). -/
structure CameraV where
  position : Vec3
  forward : Vec3
  right : Vec3
  up : Vec3

/-- `Camera::Camera` of volume_render.cpp: `forward = (lookAt-pos).normalize()`,
`right = forward.cross(upVec).normalize()`, `up = forward.cross(right).normalize()`,
then the stored `right`/`up` are scaled by `tanFov * aspect` / `tanFov`
with `tanFov = tan(fov * 0.5f * M_PI / 180.0f)`. -/
def mkCameraV (pos lookAt upVec : Vec3) (fov aspect : ℝ) : CameraV :=
  let forward := Vec3.normalize (lookAt - pos)
  let right := Vec3.normalize (Vec3.cross forward upVec)
  let up := Vec3.normalize (Vec3.cross forward right)
  let tanFov := Real.tan (fov * (1 / 2) * Real.pi / 180)
  ⟨pos, forward, right * (tanFov * aspect), up * tanFov⟩

/-- `Camera::updateVectors` of Camera.h: returns the derived
`(forward, right, upVector)`, where `upVector = right.cross(forward).normalized()`. -/
def updateVectors (position lookAt up : Vec3) : Vec3 × Vec3 × Vec3 :=
  let forward := Vec3.normalize (lookAt - position)
  let right := Vec3.normalize (Vec3.cross forward up)
  let upVector := Vec3.normalize (Vec3.cross right forward)
  (forward, right, upVector)

/-! ### PPM writers -/

/-- One output channel of `saveToPPM`:
`static_cast<unsigned char>(std::min(c * 255.0f, 255.0f))` — the upper
clamp at 255 followed by the float-to-byte truncation (equal to the floor
for the non-negative radiance values the renderer produces). -/
def toByte (c : ℝ) : ℤ := ⌊min (c * 255) 255⌋

/-- The header both PPM writers emit: `"P6\n<width> <height>\n255\n"`. -/
def ppmHeader (w h : ℕ) : String :=
  "P6\n" ++ toString w ++ " " ++ toString h ++ "\n255\n"

/-- The byte stream `saveToPPM` writes after the header: one RGB triplet
per pixel, in buffer order. -/
def ppmPayload (pixels : List Vec3) : List ℤ :=
  (pixels.map (fun c => [toByte c.x, toByte c.y, toByte c.z])).flatten

/-- `saveToPPM` of volume_render.cpp, as the pair (header, byte stream). -/
def saveToPPM (pixels : List Vec3) (w h : ℕ) : String × List ℤ :=
  (ppmHeader w h, ppmPayload pixels)

/-- `saveSliceToPPM` of the VDB inspection utility: same header, and the
already-byte-valued `Color` triplets are written through unchanged. -/
def saveSliceToPPM (pixels : List (ℕ × ℕ × ℕ)) (w h : ℕ) : String × List ℕ :=
  (ppmHeader w h, (pixels.map (fun c => [c.1, c.2.1, c.2.2])).flatten)

/-! ### CLI driver (`main` of volume_render.cpp) -/

/-- Externally visible outcome of one run of `main`. -/
structure CLIOut where
  exitCode : ℕ
  out : List String
  err : List String
  files : List String
deriving DecidableEq

/-- Control-flow model of `main` in volume_render.cpp.  `args` is the full
argv (program name plus positional arguments, so `argc = args.length`).
The try-block (OpenVDB load, render, save) is abstracted into its outcome
`body`: on success the program has written the PPM and prints the filename
message; on an exception, `soFar` is the pair of stdout lines and files the
block produced before the throw, and the handler prints to stderr. -/
def mainModel (args : List String) (body : Except String Unit)
    (soFar : List String × List String) : CLIOut :=
  if args.length ≠ 2 then
    ⟨1, ["Usage: " ++ args.headD "" ++ " <vdb_file>"], [], []⟩
  else
    match body with
    | Except.ok _ =>
        ⟨0, ["Rendered image saved to volume_render.ppm"], [], ["volume_render.ppm"]⟩
    | Except.error e => ⟨1, soFar.1, ["Error: " ++ e], soFar.2⟩

/-! ### Image buffer (`Image` header, src/unnamed/part_002) -/

/-- The `Image` class: width/height and the three channel matrices,
modelled as functions of (row, column). -/
structure Image where
  width : ℤ
  height : ℤ
  red : ℤ → ℤ → ℝ
  green : ℤ → ℤ → ℝ
  blue : ℤ → ℤ → ℝ

/-- `std::clamp(v, 0.0, 1.0)`. -/
def clamp01 (v : ℝ) : ℝ := if v < 0 then 0 else if 1 < v then 1 else v

/-- `Image::setPixel`: bounds-checked write with per-channel clamping. -/
def Image.setPixel (img : Image) (x y : ℤ) (r g b : ℝ) : Image :=
  if 0 ≤ x ∧ x < img.width ∧ 0 ≤ y ∧ y < img.height then
    { img with
      red := fun y2 x2 => if y2 = y ∧ x2 = x then clamp01 r else img.red y2 x2
      green := fun y2 x2 => if y2 = y ∧ x2 = x then clamp01 g else img.green y2 x2
      blue := fun y2 x2 => if y2 = y ∧ x2 = x then clamp01 b else img.blue y2 x2 }
  else img

/-- `Image::getPixel`: the reference out-parameters `r`, `g`, `b` enter as
their prior values and are returned (overwritten only in range). -/
def Image.getPixel (img : Image) (x y : ℤ) (r g b : ℝ) : ℝ × ℝ × ℝ :=
  if 0 ≤ x ∧ x < img.width ∧ 0 ≤ y ∧ y < img.height then
    (img.red y x, img.green y x, img.blue y x)
  else (r, g, b)

/-! ### Loop lemmas -/

/-- One loop iteration consumes one unit of the step-count bound. -/
theorem ceil_decrease (step lo hi : ℝ) (hstep : 0 < step) (h : lo < hi) :
    Nat.ceil ((hi - (lo + step)) / step) + 1 ≤ Nat.ceil ((hi - lo) / step) := by
  have hzpos : 0 < (hi - lo) / step := div_pos (by linarith) hstep
  have h1 : 1 ≤ Nat.ceil ((hi - lo) / step) := Nat.ceil_pos.mpr hzpos
  have harg : (hi - (lo + step)) / step = (hi - lo) / step - 1 := by
    field_simp
    ring
  have h2 : Nat.ceil ((hi - lo) / step - 1) ≤ Nat.ceil ((hi - lo) / step) - 1 := by
    apply Nat.ceil_le.mpr
    rw [Nat.cast_sub h1]
    have hle := Nat.le_ceil ((hi - lo) / step)
    push_cast
    linarith
  rw [harg]
  omega

/-- Once the transmittance is at or below the cutoff, the primary march
takes no further samples and its whole state is frozen. -/
theorem marchAux_freeze (field : Vec3 → ℝ) (rayO rayD lightDir : Vec3) (step tMax : ℝ)
    (n : ℕ) (s : MState) (h : s.transmittance ≤ 1 / 100) :
    marchAux field rayO rayD lightDir step tMax n s = s := by
  cases n with
  | zero => rfl
  | succ n =>
    simp only [marchAux]
    rw [if_neg]
    exact fun hc => absurd hc.2 (not_lt.mpr h)

/-- If every remaining sample of the primary march has zero density, the
transmittance and color pass through unchanged. -/
theorem marchAux_zero_tail (field : Vec3 → ℝ) (rayO rayD lightDir : Vec3) (step tMax : ℝ)
    (n : ℕ) (s : MState)
    (h : ∀ k : ℕ, field (rayO + rayD * (s.t + (k : ℝ) * step)) = 0) :
    (marchAux field rayO rayD lightDir step tMax n s).transmittance = s.transmittance ∧
    (marchAux field rayO rayD lightDir step tMax n s).color = s.color := by
  induction n generalizing s with
  | zero => exact ⟨rfl, rfl⟩
  | succ n ih =>
    simp only [marchAux]
    by_cases hg : s.t < tMax ∧ 1 / 100 < s.transmittance
    · rw [if_pos hg]
      have h0 : field (rayO + rayD * s.t) = 0 := by
        have hk := h 0
        push_cast at hk
        simpa using hk
      rw [h0, if_neg (lt_irrefl 0)]
      refine ih _ (fun k => ?_)
      have hk := h (k + 1)
      have harg : s.t + step + (k : ℝ) * step = s.t + ((k + 1 : ℕ) : ℝ) * step := by
        push_cast
        ring
      simpa [harg] using hk
    · rw [if_neg hg]
      exact ⟨rfl, rfl⟩

/-- If every remaining sample of the shadow march has zero density, the
returned transmittance is the incoming one. -/
theorem shadowAux_zero_tail (field : Vec3 → ℝ) (lightDir : Vec3) (step : ℝ) (pos : Vec3)
    (n : ℕ) (t tr : ℝ) (cnt : ℕ)
    (h : ∀ k : ℕ, field (pos + lightDir * (t + (k : ℝ) * step)) = 0) :
    (shadowAux field lightDir step pos n t tr cnt).1 = tr := by
  induction n generalizing t tr cnt with
  | zero => rfl
  | succ n ih =>
    simp only [shadowAux]
    by_cases hg : t < 20 ∧ 1 / 100 < tr
    · rw [if_pos hg]
      have h0 : field (pos + lightDir * t) = 0 := by
        have hk := h 0
        push_cast at hk
        simpa using hk
      rw [h0]
      have hstep1 : tr * Real.exp (-0 * step) = tr := by
        simp
      rw [hstep1]
      refine ih _ _ _ (fun k => ?_)
      have hk := h (k + 1)
      have harg : t + step + (k : ℝ) * step = t + ((k + 1 : ℕ) : ℝ) * step := by
        push_cast
        ring
      simpa [harg] using hk
    · rw [if_neg hg]

/-- If the field is zero at every point the shadow march can sample before
its 20-unit cutoff, the returned transmittance is the incoming one. -/
theorem shadowAux_zero_within (field : Vec3 → ℝ) (lightDir : Vec3) (step : ℝ) (pos : Vec3)
    (n : ℕ) (t tr : ℝ) (cnt : ℕ) (hstep : 0 ≤ step) (ht : 0 ≤ t)
    (h : ∀ u : ℝ, 0 ≤ u → u < 20 → field (pos + lightDir * u) = 0) :
    (shadowAux field lightDir step pos n t tr cnt).1 = tr := by
  induction n generalizing t tr cnt with
  | zero => rfl
  | succ n ih =>
    simp only [shadowAux]
    by_cases hg : t < 20 ∧ 1 / 100 < tr
    · rw [if_pos hg, h t ht hg.1]
      have hstep1 : tr * Real.exp (-0 * step) = tr := by
        simp
      rw [hstep1]
      exact ih _ _ _ (by linarith)
    · rw [if_neg hg]

/-- The shadow transmittance stays in `(0, 1]` when densities are
non-negative and the step size is non-negative. -/
theorem shadowAux_unit_range (field : Vec3 → ℝ) (lightDir : Vec3) (step : ℝ) (pos : Vec3)
    (n : ℕ) (t tr : ℝ) (cnt : ℕ) (hstep : 0 ≤ step) (hfield : ∀ p, 0 ≤ field p)
    (h0 : 0 < tr) (h1 : tr ≤ 1) :
    0 < (shadowAux field lightDir step pos n t tr cnt).1 ∧
    (shadowAux field lightDir step pos n t tr cnt).1 ≤ 1 := by
  induction n generalizing t tr cnt with
  | zero => exact ⟨h0, h1⟩
  | succ n ih =>
    simp only [shadowAux]
    by_cases hg : t < 20 ∧ 1 / 100 < tr
    · rw [if_pos hg]
      have hexp1 : Real.exp (-field (pos + lightDir * t) * step) ≤ 1 := by
        rw [show (1 : ℝ) = Real.exp 0 by rw [Real.exp_zero]]
        apply Real.exp_le_exp.mpr
        have := mul_nonneg (hfield (pos + lightDir * t)) hstep
        linarith
      exact ih _ _ _ (mul_pos h0 (Real.exp_pos _))
        (mul_le_one₀ h1 (Real.exp_pos _).le hexp1)
    · rw [if_neg hg]
      exact ⟨h0, h1⟩

/-- Step count of the primary march is bounded by
`⌈(tMax - t) / step⌉` (for any amount of fuel). -/
theorem marchAux_count (field : Vec3 → ℝ) (rayO rayD lightDir : Vec3) (step tMax : ℝ)
    (hstep : 0 < step) (n : ℕ) (s : MState) :
    (marchAux field rayO rayD lightDir step tMax n s).steps ≤
      s.steps + Nat.ceil ((tMax - s.t) / step) := by
  induction n generalizing s with
  | zero => exact Nat.le_add_right _ _
  | succ n ih =>
    simp only [marchAux]
    by_cases hg : s.t < tMax ∧ 1 / 100 < s.transmittance
    · rw [if_pos hg]
      have hdec := ceil_decrease step s.t tMax hstep hg.1
      by_cases hd : 0 < field (rayO + rayD * s.t)
      · rw [if_pos hd]
        refine le_trans (ih _) ?_
        show s.steps + 1 + Nat.ceil ((tMax - (s.t + step)) / step) ≤
          s.steps + Nat.ceil ((tMax - s.t) / step)
        omega
      · rw [if_neg hd]
        refine le_trans (ih _) ?_
        show s.steps + 1 + Nat.ceil ((tMax - (s.t + step)) / step) ≤
          s.steps + Nat.ceil ((tMax - s.t) / step)
        omega
    · rw [if_neg hg]
      exact Nat.le_add_right _ _

/-- Fuel beyond `⌈(tMax - t) / step⌉` changes nothing: the primary march
terminates through its own guard within that many iterations. -/
theorem marchAux_stable (field : Vec3 → ℝ) (rayO rayD lightDir : Vec3) (step tMax : ℝ)
    (hstep : 0 < step) (n : ℕ) (s : MState)
    (h : Nat.ceil ((tMax - s.t) / step) ≤ n) :
    marchAux field rayO rayD lightDir step tMax (n + 1) s =
      marchAux field rayO rayD lightDir step tMax n s := by
  induction n generalizing s with
  | zero =>
    have hg : ¬(s.t < tMax ∧ 1 / 100 < s.transmittance) := by
      intro hc
      have : 0 < Nat.ceil ((tMax - s.t) / step) :=
        Nat.ceil_pos.mpr (div_pos (by linarith [hc.1]) hstep)
      omega
    simp only [marchAux]
    rw [if_neg hg]
  | succ n ih =>
    by_cases hg : s.t < tMax ∧ 1 / 100 < s.transmittance
    · have hdec := ceil_decrease step s.t tMax hstep hg.1
      conv_lhs => rw [marchAux]
      conv_rhs => rw [marchAux]
      rw [if_pos hg, if_pos hg]
      by_cases hd : 0 < field (rayO + rayD * s.t)
      · rw [if_pos hd, if_pos hd]
        exact ih _ (by
          show Nat.ceil ((tMax - (s.t + step)) / step) ≤ n
          omega)
      · rw [if_neg hd, if_neg hd]
        exact ih _ (by
          show Nat.ceil ((tMax - (s.t + step)) / step) ≤ n
          omega)
    · conv_lhs => rw [marchAux]
      conv_rhs => rw [marchAux]
      rw [if_neg hg, if_neg hg]

/-- Iteration count of the shadow march is bounded by `⌈(20 - t) / step⌉`
(for any amount of fuel): the 20-unit distance cap bounds the march. -/
theorem shadowAux_count (field : Vec3 → ℝ) (lightDir : Vec3) (step : ℝ) (pos : Vec3)
    (hstep : 0 < step) (n : ℕ) (t tr : ℝ) (cnt : ℕ) :
    (shadowAux field lightDir step pos n t tr cnt).2 ≤
      cnt + Nat.ceil ((20 - t) / step) := by
  induction n generalizing t tr cnt with
  | zero => exact Nat.le_add_right _ _
  | succ n ih =>
    simp only [shadowAux]
    by_cases hg : t < 20 ∧ 1 / 100 < tr
    · rw [if_pos hg]
      have hdec := ceil_decrease step t 20 hstep hg.1
      refine le_trans (ih _ _ _) ?_
      omega
    · rw [if_neg hg]
      exact Nat.le_add_right _ _

/-- Once the shadow transmittance is at or below the cutoff, the shadow
march takes no further samples. -/
theorem shadowAux_freeze (field : Vec3 → ℝ) (lightDir : Vec3) (step : ℝ) (pos : Vec3)
    (n : ℕ) (t tr : ℝ) (cnt : ℕ) (h : tr ≤ 1 / 100) :
    shadowAux field lightDir step pos n t tr cnt = (tr, cnt) := by
  cases n with
  | zero => rfl
  | succ n =>
    simp only [shadowAux]
    rw [if_neg]
    exact fun hc => absurd hc.2 (not_lt.mpr h)

/-- One iteration of the primary march at a positive-density sample,
written out: the transmittance is updated first, and the color then
receives `phase * shadow * (updated transmittance) * extinction` — in the
first channel only, since `Vec3(1.0f)` is `(1, 0, 0)`. -/
theorem marchAux_step_pos (field : Vec3 → ℝ) (rayO rayD lightDir : Vec3) (step tMax : ℝ)
    (n : ℕ) (s : MState) (hg : s.t < tMax ∧ 1 / 100 < s.transmittance)
    (hd : 0 < field (rayO + rayD * s.t)) :
    marchAux field rayO rayD lightDir step tMax (n + 1) s =
      marchAux field rayO rayD lightDir step tMax n
        ⟨s.t + step,
         s.transmittance * Real.exp (-(field (rayO + rayD * s.t) * step)),
         s.color +
           ⟨phaseConst * traceShadowRay field lightDir step (rayO + rayD * s.t) *
              (s.transmittance * Real.exp (-(field (rayO + rayD * s.t) * step))) *
              (field (rayO + rayD * s.t) * step), 0, 0⟩,
         s.steps + 1⟩ := by
  have hcol : (⟨1, 0, 0⟩ : Vec3) * phaseConst *
      traceShadowRay field lightDir step (rayO + rayD * s.t) *
      (s.transmittance * Real.exp (-(field (rayO + rayD * s.t) * step))) *
      (field (rayO + rayD * s.t) * step) =
      (⟨phaseConst * traceShadowRay field lightDir step (rayO + rayD * s.t) *
        (s.transmittance * Real.exp (-(field (rayO + rayD * s.t) * step))) *
        (field (rayO + rayD * s.t) * step), 0, 0⟩ : Vec3) := by
    ext <;> simp
  simp only [marchAux]
  rw [if_pos hg, if_pos hd, hcol]

/-- One iteration of the primary march at a non-positive-density sample:
no contribution, no transmittance change. -/
theorem marchAux_step_nonpos (field : Vec3 → ℝ) (rayO rayD lightDir : Vec3) (step tMax : ℝ)
    (n : ℕ) (s : MState) (hg : s.t < tMax ∧ 1 / 100 < s.transmittance)
    (hd : field (rayO + rayD * s.t) ≤ 0) :
    marchAux field rayO rayD lightDir step tMax (n + 1) s =
      marchAux field rayO rayD lightDir step tMax n
        ⟨s.t + step, s.transmittance, s.color, s.steps + 1⟩ := by
  conv_lhs => rw [marchAux]
  rw [if_pos hg, if_neg (not_lt.mpr hd)]

/-- One iteration of the shadow march: the Beer-Lambert factor is applied
unconditionally, with no guard on the sign of the sampled density. -/
theorem shadowAux_step (field : Vec3 → ℝ) (lightDir : Vec3) (step : ℝ) (pos : Vec3)
    (n : ℕ) (t tr : ℝ) (cnt : ℕ) (hg : t < 20 ∧ 1 / 100 < tr) :
    shadowAux field lightDir step pos (n + 1) t tr cnt =
      shadowAux field lightDir step pos n (t + step)
        (tr * Real.exp (-field (pos + lightDir * t) * step)) (cnt + 1) := by
  conv_lhs => rw [shadowAux]
  rw [if_pos hg]

/-! ### Vector geometry lemmas (camera bases) -/

theorem Vec3.sum_mul_self_nonneg (v : Vec3) :
    0 ≤ v.x * v.x + v.y * v.y + v.z * v.z := by
  have h1 := mul_self_nonneg v.x
  have h2 := mul_self_nonneg v.y
  have h3 := mul_self_nonneg v.z
  linarith

theorem Vec3.dot_self_nonneg (v : Vec3) : 0 ≤ Vec3.dot v v :=
  Vec3.sum_mul_self_nonneg v

theorem Vec3.dot_self_pos (v : Vec3) (h : v ≠ (⟨0, 0, 0⟩ : Vec3)) : 0 < Vec3.dot v v := by
  rcases (Vec3.dot_self_nonneg v).lt_or_eq with hlt | heq
  · exact hlt
  · exfalso
    apply h
    have hx : v.x * v.x = 0 := by
      have h1 := mul_self_nonneg v.x
      have h2 := mul_self_nonneg v.y
      have h3 := mul_self_nonneg v.z
      simp only [Vec3.dot] at heq
      linarith
    have hy : v.y * v.y = 0 := by
      have h1 := mul_self_nonneg v.x
      have h2 := mul_self_nonneg v.y
      have h3 := mul_self_nonneg v.z
      simp only [Vec3.dot] at heq
      linarith
    have hz : v.z * v.z = 0 := by
      have h1 := mul_self_nonneg v.x
      have h2 := mul_self_nonneg v.y
      have h3 := mul_self_nonneg v.z
      simp only [Vec3.dot] at heq
      linarith
    ext
    · exact mul_self_eq_zero.mp hx
    · exact mul_self_eq_zero.mp hy
    · exact mul_self_eq_zero.mp hz

theorem Vec3.length_pos (v : Vec3) (h : v ≠ (⟨0, 0, 0⟩ : Vec3)) : 0 < v.length :=
  Real.sqrt_pos.mpr (Vec3.dot_self_pos v h)

theorem Vec3.length_sq (v : Vec3) : v.length * v.length = Vec3.dot v v :=
  Real.mul_self_sqrt (Vec3.dot_self_nonneg v)

theorem Vec3.length_normalize (v : Vec3) (h : v ≠ (⟨0, 0, 0⟩ : Vec3)) :
    (Vec3.normalize v).length = 1 := by
  have key : (Vec3.normalize v).length =
      Real.sqrt ((v.x * v.x + v.y * v.y + v.z * v.z) / (v.length * v.length)) := by
    simp only [Vec3.normalize, Vec3.length]
    congr 1
    ring
  rw [key, show v.x * v.x + v.y * v.y + v.z * v.z = Vec3.dot v v from rfl,
    Vec3.length_sq v, div_self (Vec3.dot_self_pos v h).ne', Real.sqrt_one]

theorem Vec3.dot_normalize_right (a b : Vec3) :
    Vec3.dot a (Vec3.normalize b) = Vec3.dot a b / b.length := by
  simp only [Vec3.dot, Vec3.normalize]
  ring

theorem Vec3.dot_normalize_left (a b : Vec3) :
    Vec3.dot (Vec3.normalize a) b = Vec3.dot a b / a.length := by
  simp only [Vec3.dot, Vec3.normalize]
  ring

theorem Vec3.dot_cross_left (a b : Vec3) : Vec3.dot a (Vec3.cross a b) = 0 := by
  simp only [Vec3.dot, Vec3.cross]
  ring

theorem Vec3.dot_cross_right (a b : Vec3) : Vec3.dot b (Vec3.cross a b) = 0 := by
  simp only [Vec3.dot, Vec3.cross]
  ring

/-- Lagrange identity for the cross product. -/
theorem Vec3.cross_dot_self (a b : Vec3) :
    Vec3.dot (Vec3.cross a b) (Vec3.cross a b) =
      Vec3.dot a a * Vec3.dot b b - Vec3.dot a b * Vec3.dot a b := by
  simp only [Vec3.dot, Vec3.cross]
  ring

theorem Vec3.dot_self_of_length_one (v : Vec3) (h : v.length = 1) : Vec3.dot v v = 1 := by
  rw [← Vec3.length_sq v, h, mul_one]

theorem Vec3.length_smul (v : Vec3) (s : ℝ) : (v * s).length = v.length * |s| := by
  simp only [Vec3.length, Vec3.smul_x, Vec3.smul_y, Vec3.smul_z]
  rw [show v.x * s * (v.x * s) + v.y * s * (v.y * s) + v.z * s * (v.z * s) =
    (v.x * v.x + v.y * v.y + v.z * v.z) * (s * s) by ring]
  rw [Real.sqrt_mul (Vec3.sum_mul_self_nonneg v), Real.sqrt_mul_self_eq_abs]

theorem Vec3.dot_smul_right (a b : Vec3) (s : ℝ) :
    Vec3.dot a (b * s) = Vec3.dot a b * s := by
  simp only [Vec3.dot, Vec3.smul_x, Vec3.smul_y, Vec3.smul_z]
  ring

theorem Vec3.dot_smul_left (a b : Vec3) (s : ℝ) :
    Vec3.dot (a * s) b = Vec3.dot a b * s := by
  simp only [Vec3.dot, Vec3.smul_x, Vec3.smul_y, Vec3.smul_z]
  ring

/-! ### Evaluation lemmas for `FVal` operations -/

@[simp] theorem flt_nan_left (b : FVal) : flt FVal.nan b = false := by cases b <;> rfl

@[simp] theorem flt_nan_right (a : FVal) : flt a FVal.nan = false := by cases a <;> rfl

@[simp] theorem flt_pinf_left (b : FVal) : flt FVal.pinf b = false := by cases b <;> rfl

@[simp] theorem flt_fin_fin (a b : ℝ) :
    flt (FVal.fin a) (FVal.fin b) = if a < b then true else false := rfl

@[simp] theorem flt_fin_pinf (a : ℝ) : flt (FVal.fin a) FVal.pinf = true := rfl

@[simp] theorem flt_fin_ninf (a : ℝ) : flt (FVal.fin a) FVal.ninf = false := rfl

@[simp] theorem flt_ninf_fin (a : ℝ) : flt FVal.ninf (FVal.fin a) = true := rfl

@[simp] theorem flt_ninf_pinf : flt FVal.ninf FVal.pinf = true := rfl

@[simp] theorem flt_ninf_ninf : flt FVal.ninf FVal.ninf = false := rfl

@[simp] theorem fle_nan_left (b : FVal) : fle FVal.nan b = false := by cases b <;> rfl

@[simp] theorem fle_nan_right (a : FVal) : fle a FVal.nan = false := by cases a <;> rfl

@[simp] theorem fle_fin_fin (a b : ℝ) :
    fle (FVal.fin a) (FVal.fin b) = if a ≤ b then true else false := rfl

@[simp] theorem fle_fin_pinf (a : ℝ) : fle (FVal.fin a) FVal.pinf = true := rfl

@[simp] theorem fle_fin_ninf (a : ℝ) : fle (FVal.fin a) FVal.ninf = false := rfl

@[simp] theorem fle_pinf_pinf : fle FVal.pinf FVal.pinf = true := rfl

@[simp] theorem fle_pinf_fin (a : ℝ) : fle FVal.pinf (FVal.fin a) = false := rfl

@[simp] theorem fle_pinf_ninf : fle FVal.pinf FVal.ninf = false := rfl

@[simp] theorem fle_ninf_fin (a : ℝ) : fle FVal.ninf (FVal.fin a) = true := rfl

@[simp] theorem fle_ninf_pinf : fle FVal.ninf FVal.pinf = true := rfl

@[simp] theorem fle_ninf_ninf : fle FVal.ninf FVal.ninf = true := rfl

@[simp] theorem fscale_fin (a q : ℝ) : fscale a (FVal.fin q) = FVal.fin (a * q) := rfl

@[simp] theorem fscale_pinf (a : ℝ) :
    fscale a FVal.pinf =
      if 0 < a then FVal.pinf else if a < 0 then FVal.ninf else FVal.nan := rfl

@[simp] theorem fscale_ninf (a : ℝ) :
    fscale a FVal.ninf =
      if 0 < a then FVal.ninf else if a < 0 then FVal.pinf else FVal.nan := rfl

@[simp] theorem fscale_nan (a : ℝ) : fscale a FVal.nan = FVal.nan := rfl

@[simp] theorem toReal_fin (q : ℝ) : (FVal.fin q).toReal = q := rfl

/-! ### Concrete scenes used by counterexamples and witnesses -/

/-- Density field that is 1 exactly on the plane `z = 0`, 0 elsewhere. -/
def planeField : Vec3 → ℝ := fun p => if p.z = 0 then 1 else 0

/-- Density field that is `-1` exactly on the plane `z = 0`, 0 elsewhere
(a field with a negative sample). -/
def negField : Vec3 → ℝ := fun p => if p.z = 0 then -1 else 0

/-- Density field that is 0 everywhere. -/
def zeroField : Vec3 → ℝ := fun _ => 0

/-- Unit-box corner (0,0,0). -/
def cbox0 : Vec3 := ⟨0, 0, 0⟩

/-- Unit-box corner (1,1,1). -/
def cbox1 : Vec3 := ⟨1, 1, 1⟩

/-- A ray origin below the unit box, on its vertical center line. -/
def corig : Vec3 := ⟨1 / 2, 1 / 2, -1⟩

/-- Ray direction straight up the z axis. -/
def cdir : Vec3 := ⟨0, 0, 1⟩

/-- A ray origin above the box (so that `cdir` points away from it). -/
def corigAway : Vec3 := ⟨1 / 2, 1 / 2, 2⟩

theorem box_eval : intersectBox cbox0 cbox1 corig cdir = ⟨true, FVal.fin 1, FVal.fin 2⟩ := by
  norm_num [intersectBox, finv, cppMax, cppMin, cbox0, cbox1, corig, cdir]

theorem box_eval_miss :
    intersectBox cbox0 cbox1 corigAway cdir = ⟨false, FVal.fin (-2), FVal.fin (-1)⟩ := by
  norm_num [intersectBox, finv, cppMax, cppMin, cbox0, cbox1, corigAway, cdir]

theorem planeField_off (p : Vec3) (h : p.z ≠ 0) : planeField p = 0 := if_neg h

theorem planeField_on (p : Vec3) (h : p.z = 0) : planeField p = 1 := if_pos h

theorem negField_off (p : Vec3) (h : p.z ≠ 0) : negField p = 0 := if_neg h

theorem negField_on (p : Vec3) (h : p.z = 0) : negField p = -1 := if_pos h

/-- The shadow march from the on-plane point `(1/2, 1/2, 0)` through
`planeField`: one attenuating sample (the start point itself), all later
samples off the plane. -/
theorem shadow_eval :
    traceShadowRay planeField cdir (1 / 10) ⟨1 / 2, 1 / 2, 0⟩ = Real.exp (-(1 / 10)) := by
  have hfuel : Nat.ceil ((20 : ℝ) / (1 / 10)) = 200 := by
    rw [show (20 : ℝ) / (1 / 10) = (200 : ℕ) by norm_num, Nat.ceil_natCast]
  unfold traceShadowRay
  rw [hfuel, show (200 : ℕ) = 199 + 1 from rfl,
    shadowAux_step planeField cdir (1 / 10) ⟨1 / 2, 1 / 2, 0⟩ 199 0 1 0 (by norm_num)]
  have hp0 : planeField ((⟨1 / 2, 1 / 2, 0⟩ : Vec3) + cdir * (0 : ℝ)) = 1 := by
    apply planeField_on
    simp [cdir]
  rw [hp0]
  rw [shadowAux_zero_tail planeField cdir (1 / 10) ⟨1 / 2, 1 / 2, 0⟩ 199 (0 + 1 / 10) _ _
    (fun k => by
      apply planeField_off
      simp [cdir]
      positivity)]
  norm_num

/-- The shadow march from the origin through `negField`: one sample with
density `-1`, so the transmittance is multiplied by `exp(+1/10) > 1`. -/
theorem shadow_eval_neg :
    traceShadowRay negField cdir (1 / 10) ⟨0, 0, 0⟩ = Real.exp (1 / 10) := by
  have hfuel : Nat.ceil ((20 : ℝ) / (1 / 10)) = 200 := by
    rw [show (20 : ℝ) / (1 / 10) = (200 : ℕ) by norm_num, Nat.ceil_natCast]
  unfold traceShadowRay
  rw [hfuel, show (200 : ℕ) = 199 + 1 from rfl,
    shadowAux_step negField cdir (1 / 10) ⟨0, 0, 0⟩ 199 0 1 0 (by norm_num)]
  have hp0 : negField ((⟨0, 0, 0⟩ : Vec3) + cdir * (0 : ℝ)) = -1 := by
    apply negField_on
    simp [cdir]
  rw [hp0]
  rw [shadowAux_zero_tail negField cdir (1 / 10) ⟨0, 0, 0⟩ 199 (0 + 1 / 10) _ _
    (fun k => by
      apply negField_off
      simp [cdir]
      positivity)]
  norm_num

/-- Full evaluation of the plane-field scene: the ray enters the box at
`t = 1` (sampling the plane `z = 0`, density 1) and all later samples have
zero density.  The one positive sample contributes with the transmittance
AFTER that step's Beer-Lambert update, i.e. `exp(-1/10)`, multiplied by
the shadow transmittance `exp(-1/10)` and the extinction `1/10`. -/
theorem trace_eval :
    trace planeField cbox0 cbox1 cdir (1 / 10) corig cdir =
      (⟨phaseConst * Real.exp (-(1 / 10)) * Real.exp (-(1 / 10)) * (1 / 10), 0, 0⟩ : Vec3) := by
  have hpos1 : corig + cdir * ((⟨1, 1, ⟨0, 0, 0⟩, 0⟩ : MState).t) = (⟨1 / 2, 1 / 2, 0⟩ : Vec3) := by
    ext <;> norm_num [corig, cdir]
  have hplane1 : planeField (⟨1 / 2, 1 / 2, 0⟩ : Vec3) = 1 := planeField_on _ rfl
  have hstep : marchAux planeField corig cdir cdir (1 / 10) 2 10 ⟨1, 1, ⟨0, 0, 0⟩, 0⟩ =
      marchAux planeField corig cdir cdir (1 / 10) 2 9
        ⟨1 + 1 / 10, Real.exp (-(1 / 10)),
         ⟨phaseConst * Real.exp (-(1 / 10)) * Real.exp (-(1 / 10)) * (1 / 10), 0, 0⟩, 1⟩ := by
    rw [show (10 : ℕ) = 9 + 1 from rfl]
    rw [marchAux_step_pos planeField corig cdir cdir (1 / 10) 2 9 ⟨1, 1, ⟨0, 0, 0⟩, 0⟩
      (by constructor <;> norm_num) (by rw [hpos1, hplane1]; norm_num)]
    congr 1
    ext <;> (try rw [hpos1]) <;> (try rw [hplane1]) <;> (try rw [shadow_eval]) <;> norm_num
  have htail := marchAux_zero_tail planeField corig cdir cdir (1 / 10) 2 9
      ⟨1 + 1 / 10, Real.exp (-(1 / 10)),
       ⟨phaseConst * Real.exp (-(1 / 10)) * Real.exp (-(1 / 10)) * (1 / 10), 0, 0⟩, 1⟩
      (fun k => by
        apply planeField_off
        simp only [corig, cdir, Vec3.add_z, Vec3.smul_z]
        intro h
        have hk : (0 : ℝ) ≤ (k : ℝ) := Nat.cast_nonneg k
        linarith)
  have hfuel : Nat.ceil (((2 : ℝ) - 1) / (1 / 10)) = 10 := by
    rw [show ((2 : ℝ) - 1) / (1 / 10) = ((10 : ℕ) : ℝ) by norm_num, Nat.ceil_natCast]
  simp only [trace, box_eval, toReal_fin]
  rw [if_true, hfuel, hstep, htail.2]

/-! ### Claim theorems -/

/-- C1, counterexample: in the plane-field scene the accumulated color is
NOT `isotropicPhase x shadowTransmittance x (transmittance arriving at the
sample, here 1) x extinction` — the code multiplies by the transmittance
AFTER the current step's Beer-Lambert update, an extra factor `exp(-1/10)`. -/
theorem claim1_counterexample :
    (trace planeField cbox0 cbox1 cdir (1 / 10) corig cdir).x ≠
      phaseConst * traceShadowRay planeField cdir (1 / 10) ⟨1 / 2, 1 / 2, 0⟩ * 1 *
        (planeField ⟨1 / 2, 1 / 2, 0⟩ * (1 / 10)) := by
  rw [trace_eval, shadow_eval, planeField_on _ rfl]
  show phaseConst * Real.exp (-(1 / 10)) * Real.exp (-(1 / 10)) * (1 / 10) ≠
    phaseConst * Real.exp (-(1 / 10)) * 1 * (1 * (1 / 10))
  intro h
  have hphase : 0 < phaseConst := by
    have hpi := Real.pi_pos
    simp only [phaseConst]
    positivity
  have hexp := Real.exp_pos (-(1 / 10) : ℝ)
  have hne : Real.exp (-(1 / 10) : ℝ) ≠ 1 := by
    intro h1
    rw [Real.exp_eq_one_iff] at h1
    norm_num at h1
  apply hne
  have h10 : (0 : ℝ) < 1 / 10 := by norm_num
  have hc : phaseConst * Real.exp (-(1 / 10) : ℝ) * (1 / 10) * Real.exp (-(1 / 10) : ℝ) =
      phaseConst * Real.exp (-(1 / 10) : ℝ) * (1 / 10) * 1 := by
    linear_combination h
  exact mul_left_cancel₀ (mul_pos (mul_pos hphase hexp) h10).ne' hc

/-- C1, amended: each positive-density sample of the primary march
contributes `isotropicPhase (= 1/(4 pi)) x shadowTransmittance x
transmittance AFTER this step's Beer-Lambert update x extinction`, and it
does so in the first (red) color channel, since `Vec3(1.0f)` is `(1,0,0)`. -/
theorem claim1_contribution_post_update (field : Vec3 → ℝ) (rayO rayD lightDir : Vec3)
    (step tMax : ℝ) (n : ℕ) (s : MState)
    (hg : s.t < tMax ∧ 1 / 100 < s.transmittance)
    (hd : 0 < field (rayO + rayD * s.t)) :
    phaseConst = 1 / (4 * Real.pi) ∧
    marchAux field rayO rayD lightDir step tMax (n + 1) s =
      marchAux field rayO rayD lightDir step tMax n
        ⟨s.t + step,
         s.transmittance * Real.exp (-(field (rayO + rayD * s.t) * step)),
         s.color +
           ⟨phaseConst * traceShadowRay field lightDir step (rayO + rayD * s.t) *
              (s.transmittance * Real.exp (-(field (rayO + rayD * s.t) * step))) *
              (field (rayO + rayD * s.t) * step), 0, 0⟩,
         s.steps + 1⟩ :=
  ⟨rfl, marchAux_step_pos field rayO rayD lightDir step tMax n s hg hd⟩

theorem claim1_witness :
    phaseConst = 1 / (4 * Real.pi) ∧
    marchAux (fun _ => (1 : ℝ)) ⟨0, 0, 0⟩ ⟨0, 0, 1⟩ ⟨0, 0, 1⟩ (1 / 10) 1 1 ⟨0, 1, ⟨0, 0, 0⟩, 0⟩ =
      marchAux (fun _ => (1 : ℝ)) ⟨0, 0, 0⟩ ⟨0, 0, 1⟩ ⟨0, 0, 1⟩ (1 / 10) 1 0
        ⟨0 + 1 / 10, 1 * Real.exp (-(1 * (1 / 10))),
         (⟨0, 0, 0⟩ : Vec3) +
           ⟨phaseConst *
              traceShadowRay (fun _ => (1 : ℝ)) ⟨0, 0, 1⟩ (1 / 10)
                ((⟨0, 0, 0⟩ : Vec3) + (⟨0, 0, 1⟩ : Vec3) * (0 : ℝ)) *
              (1 * Real.exp (-(1 * (1 / 10)))) * (1 * (1 / 10)), 0, 0⟩,
         0 + 1⟩ :=
  claim1_contribution_post_update (fun _ => (1 : ℝ)) ⟨0, 0, 0⟩ ⟨0, 0, 1⟩ ⟨0, 0, 1⟩
    (1 / 10) 1 0 ⟨0, 1, ⟨0, 0, 0⟩, 0⟩ ⟨by norm_num, by norm_num⟩ (by norm_num)

/-- C2, counterexample: a negative density sample on a shadow ray is NOT
treated as zero density — the shadow march applies `exp(-density*step)`
unconditionally, so the transmittance grows above 1. -/
theorem claim2_counterexample :
    1 < traceShadowRay negField cdir (1 / 10) ⟨0, 0, 0⟩ := by
  rw [shadow_eval_neg]
  have h := Real.exp_lt_exp.mpr (show (0 : ℝ) < 1 / 10 by norm_num)
  rwa [Real.exp_zero] at h

/-- C2, amended: in the primary march a non-positive density contributes
nothing and leaves the transmittance unchanged; the shadow march applies
the Beer-Lambert factor to every sample unconditionally, so a zero density
leaves its transmittance unchanged but a negative density strictly
increases it. -/
theorem claim2_negative_density (field : Vec3 → ℝ) (rayO rayD lightDir : Vec3)
    (step tMax : ℝ) (pos : Vec3) (n : ℕ) (s : MState) (t tr : ℝ) (cnt : ℕ) :
    (s.t < tMax ∧ 1 / 100 < s.transmittance → field (rayO + rayD * s.t) ≤ 0 →
      marchAux field rayO rayD lightDir step tMax (n + 1) s =
        marchAux field rayO rayD lightDir step tMax n
          ⟨s.t + step, s.transmittance, s.color, s.steps + 1⟩) ∧
    (t < 20 ∧ 1 / 100 < tr →
      shadowAux field lightDir step pos (n + 1) t tr cnt =
        shadowAux field lightDir step pos n (t + step)
          (tr * Real.exp (-field (pos + lightDir * t) * step)) (cnt + 1)) ∧
    (field (pos + lightDir * t) = 0 →
      tr * Real.exp (-field (pos + lightDir * t) * step) = tr) ∧
    (field (pos + lightDir * t) < 0 → 0 < step → 0 < tr →
      tr < tr * Real.exp (-field (pos + lightDir * t) * step)) := by
  refine ⟨fun hg hd => marchAux_step_nonpos field rayO rayD lightDir step tMax n s hg hd,
    fun hg => shadowAux_step field lightDir step pos n t tr cnt hg, ?_, ?_⟩
  · intro h0
    rw [h0]
    simp
  · intro hneg hstep htr
    have hx : (0 : ℝ) < -field (pos + lightDir * t) * step :=
      mul_pos (by linarith) hstep
    have hgt : 1 < Real.exp (-field (pos + lightDir * t) * step) := by
      have h := Real.exp_lt_exp.mpr hx
      rwa [Real.exp_zero] at h
    have h := mul_lt_mul_of_pos_left hgt htr
    rwa [mul_one] at h

theorem claim2_witness :
    (marchAux zeroField ⟨0, 0, 0⟩ cdir cdir (1 / 10) 1 1 ⟨0, 1, ⟨0, 0, 0⟩, 0⟩ =
      marchAux zeroField ⟨0, 0, 0⟩ cdir cdir (1 / 10) 1 0 ⟨0 + 1 / 10, 1, ⟨0, 0, 0⟩, 0 + 1⟩) ∧
    (shadowAux zeroField cdir (1 / 10) ⟨0, 0, 0⟩ 1 0 1 0 =
      shadowAux zeroField cdir (1 / 10) ⟨0, 0, 0⟩ 0 (0 + 1 / 10)
        (1 * Real.exp (-zeroField ((⟨0, 0, 0⟩ : Vec3) + cdir * (0 : ℝ)) * (1 / 10))) (0 + 1)) ∧
    (1 * Real.exp (-zeroField ((⟨0, 0, 0⟩ : Vec3) + cdir * (0 : ℝ)) * (1 / 10)) = 1) ∧
    (1 < 1 * Real.exp (-negField ((⟨0, 0, 0⟩ : Vec3) + cdir * (0 : ℝ)) * (1 / 10))) := by
  have hz := claim2_negative_density zeroField ⟨0, 0, 0⟩ cdir cdir (1 / 10) 1
    ⟨0, 0, 0⟩ 0 ⟨0, 1, ⟨0, 0, 0⟩, 0⟩ 0 1 0
  have hn := claim2_negative_density negField ⟨0, 0, 0⟩ cdir cdir (1 / 10) 1
    ⟨0, 0, 0⟩ 0 ⟨0, 1, ⟨0, 0, 0⟩, 0⟩ 0 1 0
  refine ⟨hz.1 ⟨by norm_num, by norm_num⟩ (le_refl 0), hz.2.1 ⟨by norm_num, by norm_num⟩,
    hz.2.2.1 rfl, hn.2.2.2 ?_ (by norm_num) (by norm_num)⟩
  rw [negField_on]
  · norm_num
  · simp [cdir]

/-- C3: the shadow-ray transmittance lies in `(0, 1]` (for the non-negative
density fields of the data model and a positive step), and it is exactly 1
when every density sampled between the point and the 20-unit cutoff is 0. -/
theorem claim3_shadow_transmittance_range (field : Vec3 → ℝ) (lightDir : Vec3)
    (step : ℝ) (pos : Vec3) (hstep : 0 < step) (hfield : ∀ p, 0 ≤ field p) :
    (0 < traceShadowRay field lightDir step pos ∧
      traceShadowRay field lightDir step pos ≤ 1) ∧
    ((∀ u : ℝ, 0 ≤ u → u < 20 → field (pos + lightDir * u) = 0) →
      traceShadowRay field lightDir step pos = 1) := by
  unfold traceShadowRay
  constructor
  · exact shadowAux_unit_range field lightDir step pos _ 0 1 0 hstep.le hfield
      one_pos (le_refl 1)
  · intro hvac
    exact shadowAux_zero_within field lightDir step pos _ 0 1 0 hstep.le (le_refl 0) hvac

theorem claim3_witness :
    (0 < traceShadowRay zeroField cdir (1 / 10) ⟨0, 0, 0⟩ ∧
      traceShadowRay zeroField cdir (1 / 10) ⟨0, 0, 0⟩ ≤ 1) ∧
    traceShadowRay zeroField cdir (1 / 10) ⟨0, 0, 0⟩ = 1 := by
  have h := claim3_shadow_transmittance_range zeroField cdir (1 / 10) ⟨0, 0, 0⟩
    (by norm_num) (fun p => le_refl 0)
  exact ⟨h.1, h.2 (fun u h1 h2 => rfl)⟩

/-- C5: the primary march takes no further samples once the transmittance
is at or below the 0.01 cutoff (state, hence returned color, frozen); for
any fuel its step count is bounded by `ceil((tMax - tMin)/stepSize)`, and
beyond that bound extra fuel changes nothing (the loop has terminated
through its own guard); the shadow march's iteration count is likewise
bounded via its 20-unit distance cap. -/
theorem claim5_march_termination (field : Vec3 → ℝ) (rayO rayD lightDir : Vec3)
    (step tMax : ℝ) (hstep : 0 < step) :
    (∀ n s, s.transmittance ≤ 1 / 100 →
      marchAux field rayO rayD lightDir step tMax n s = s) ∧
    (∀ n s, (marchAux field rayO rayD lightDir step tMax n s).steps ≤
      s.steps + Nat.ceil ((tMax - s.t) / step)) ∧
    (∀ n s, Nat.ceil ((tMax - s.t) / step) ≤ n →
      marchAux field rayO rayD lightDir step tMax (n + 1) s =
        marchAux field rayO rayD lightDir step tMax n s) ∧
    (∀ pos n t tr cnt, (shadowAux field lightDir step pos n t tr cnt).2 ≤
      cnt + Nat.ceil ((20 - t) / step)) :=
  ⟨fun n s h => marchAux_freeze field rayO rayD lightDir step tMax n s h,
   fun n s => marchAux_count field rayO rayD lightDir step tMax hstep n s,
   fun n s h => marchAux_stable field rayO rayD lightDir step tMax hstep n s h,
   fun pos n t tr cnt => shadowAux_count field lightDir step pos hstep n t tr cnt⟩

theorem claim5_witness :
    (marchAux zeroField cbox0 cdir cdir (1 / 10) 1 5 ⟨0, 1 / 200, ⟨0, 0, 0⟩, 0⟩ =
      ⟨0, 1 / 200, ⟨0, 0, 0⟩, 0⟩) ∧
    ((marchAux zeroField cbox0 cdir cdir (1 / 10) 1 7 ⟨0, 1, ⟨0, 0, 0⟩, 0⟩).steps ≤
      0 + Nat.ceil (((1 : ℝ) - 0) / (1 / 10))) ∧
    (marchAux zeroField cbox0 cdir cdir (1 / 10) 1 (10 + 1) ⟨0, 1, ⟨0, 0, 0⟩, 0⟩ =
      marchAux zeroField cbox0 cdir cdir (1 / 10) 1 10 ⟨0, 1, ⟨0, 0, 0⟩, 0⟩) ∧
    ((shadowAux zeroField cdir (1 / 10) ⟨0, 0, 0⟩ 3 0 1 0).2 ≤
      0 + Nat.ceil (((20 : ℝ) - 0) / (1 / 10))) := by
  have h := claim5_march_termination zeroField cbox0 cdir cdir (1 / 10) 1 (by norm_num)
  refine ⟨h.1 5 ⟨0, 1 / 200, ⟨0, 0, 0⟩, 0⟩ (by norm_num), h.2.1 7 ⟨0, 1, ⟨0, 0, 0⟩, 0⟩,
    h.2.2.1 10 ⟨0, 1, ⟨0, 0, 0⟩, 0⟩ ?_, h.2.2.2 ⟨0, 0, 0⟩ 3 0 1 0⟩
  rw [show ((1 : ℝ) - (⟨0, 1, ⟨0, 0, 0⟩, 0⟩ : MState).t) / (1 / 10) = ((10 : ℕ) : ℝ) by
    norm_num, Nat.ceil_natCast]

/-- C6: a ray that misses the bounding box yields zero radiance, and a ray
that hits but samples only zero density yields zero radiance with the
transmittance staying exactly 1 throughout the march. -/
theorem claim6_zero_density_zero_radiance (field : Vec3 → ℝ) (t0 t1 lightDir rayO rayD : Vec3)
    (step : ℝ) :
    ((intersectBox t0 t1 rayO rayD).hit = false →
      trace field t0 t1 lightDir step rayO rayD = (⟨0, 0, 0⟩ : Vec3)) ∧
    ((intersectBox t0 t1 rayO rayD).hit = true →
      (∀ k : ℕ, field (rayO + rayD *
          ((intersectBox t0 t1 rayO rayD).tMin.toReal + (k : ℝ) * step)) = 0) →
      trace field t0 t1 lightDir step rayO rayD = (⟨0, 0, 0⟩ : Vec3) ∧
      ∀ n, (marchAux field rayO rayD lightDir step
              ((intersectBox t0 t1 rayO rayD).tMax.toReal) n
              ⟨(intersectBox t0 t1 rayO rayD).tMin.toReal, 1, ⟨0, 0, 0⟩, 0⟩).transmittance
            = 1) := by
  constructor
  · intro hmiss
    simp only [trace]
    rw [hmiss]
    simp
  · intro hhit hz
    constructor
    · simp only [trace]
      rw [hhit, if_pos rfl]
      exact (marchAux_zero_tail field rayO rayD lightDir step
        ((intersectBox t0 t1 rayO rayD).tMax.toReal) _
        ⟨(intersectBox t0 t1 rayO rayD).tMin.toReal, 1, ⟨0, 0, 0⟩, 0⟩ hz).2
    · intro n
      exact (marchAux_zero_tail field rayO rayD lightDir step
        ((intersectBox t0 t1 rayO rayD).tMax.toReal) n
        ⟨(intersectBox t0 t1 rayO rayD).tMin.toReal, 1, ⟨0, 0, 0⟩, 0⟩ hz).1

theorem claim6_witness :
    trace zeroField cbox0 cbox1 cdir (1 / 10) corigAway cdir = (⟨0, 0, 0⟩ : Vec3) ∧
    trace zeroField cbox0 cbox1 cdir (1 / 10) corig cdir = (⟨0, 0, 0⟩ : Vec3) := by
  constructor
  · exact (claim6_zero_density_zero_radiance zeroField cbox0 cbox1 cdir corigAway cdir
      (1 / 10)).1 (by rw [box_eval_miss])
  · exact ((claim6_zero_density_zero_radiance zeroField cbox0 cbox1 cdir corig cdir
      (1 / 10)).2 (by rw [box_eval]) (fun k => rfl)).1

theorem cppMin_fin_fin (a b : ℝ) :
    cppMin (FVal.fin a) (FVal.fin b) = FVal.fin (if b < a then b else a) := by
  by_cases h : b < a <;> simp [cppMin, h]

theorem cppMax_fin_fin (a b : ℝ) :
    cppMax (FVal.fin a) (FVal.fin b) = FVal.fin (if a < b then b else a) := by
  by_cases h : a < b <;> simp [cppMax, h]

/-- C4: the slab intersection forms `tMin` as the componentwise max of the
per-axis near parameters and `tMax` as the componentwise min of the
per-axis far parameters, reports a hit exactly when `tMax >= tMin` and
`tMax > 0` (IEEE float comparisons), and a direction component of exactly
zero flows through the inverse-direction division as `+inf` rather than an
error; when the origin is strictly inside that axis's slab (the other two
axes being regular), the zero axis does not constrain the interval: the
result equals the one computed from the other two axes alone. -/
theorem claim4_slab_method (t0 t1 rayO rayD : Vec3) :
    ((intersectBox t0 t1 rayO rayD).tMin =
        cppMax (cppMax (slabNear t0.x t1.x rayO.x (finv rayD.x))
            (slabNear t0.y t1.y rayO.y (finv rayD.y)))
          (slabNear t0.z t1.z rayO.z (finv rayD.z)) ∧
      (intersectBox t0 t1 rayO rayD).tMax =
        cppMin (cppMin (slabFar t0.x t1.x rayO.x (finv rayD.x))
            (slabFar t0.y t1.y rayO.y (finv rayD.y)))
          (slabFar t0.z t1.z rayO.z (finv rayD.z)) ∧
      (intersectBox t0 t1 rayO rayD).hit =
        (fle (intersectBox t0 t1 rayO rayD).tMin (intersectBox t0 t1 rayO rayD).tMax &&
          flt (FVal.fin 0) (intersectBox t0 t1 rayO rayD).tMax)) ∧
    (rayD.x = 0 → finv rayD.x = FVal.pinf ∧
      (t0.x < rayO.x → rayO.x < t1.x → rayD.y ≠ 0 → rayD.z ≠ 0 →
        intersectBox t0 t1 rayO rayD =
          ⟨fle (cppMax (slabNear t0.y t1.y rayO.y (finv rayD.y))
                (slabNear t0.z t1.z rayO.z (finv rayD.z)))
              (cppMin (slabFar t0.y t1.y rayO.y (finv rayD.y))
                (slabFar t0.z t1.z rayO.z (finv rayD.z))) &&
            flt (FVal.fin 0)
              (cppMin (slabFar t0.y t1.y rayO.y (finv rayD.y))
                (slabFar t0.z t1.z rayO.z (finv rayD.z))),
           cppMax (slabNear t0.y t1.y rayO.y (finv rayD.y))
             (slabNear t0.z t1.z rayO.z (finv rayD.z)),
           cppMin (slabFar t0.y t1.y rayO.y (finv rayD.y))
             (slabFar t0.z t1.z rayO.z (finv rayD.z))⟩)) := by
  refine ⟨⟨rfl, rfl, rfl⟩, fun hdx => ⟨by simp [finv, hdx], fun h1 h2 hy hz => ?_⟩⟩
  have hinv : finv rayD.x = FVal.pinf := by simp [finv, hdx]
  have ha : t0.x - rayO.x < 0 := by linarith
  have hb : 0 < t1.x - rayO.x := by linarith
  have hnx : cppMin (fscale (t0.x - rayO.x) (finv rayD.x))
      (fscale (t1.x - rayO.x) (finv rayD.x)) = FVal.ninf := by
    rw [hinv, fscale_pinf, fscale_pinf, if_neg (by linarith), if_pos ha, if_pos hb]
    rfl
  have hfx : cppMax (fscale (t0.x - rayO.x) (finv rayD.x))
      (fscale (t1.x - rayO.x) (finv rayD.x)) = FVal.pinf := by
    rw [hinv, fscale_pinf, fscale_pinf, if_neg (by linarith), if_pos ha, if_pos hb]
    rfl
  have hinvy : finv rayD.y = FVal.fin (1 / rayD.y) := by simp [finv, hy]
  have hinvz : finv rayD.z = FVal.fin (1 / rayD.z) := by simp [finv, hz]
  have hqy : cppMin (fscale (t0.y - rayO.y) (finv rayD.y))
      (fscale (t1.y - rayO.y) (finv rayD.y)) =
      FVal.fin (if (t1.y - rayO.y) * (1 / rayD.y) < (t0.y - rayO.y) * (1 / rayD.y)
        then (t1.y - rayO.y) * (1 / rayD.y) else (t0.y - rayO.y) * (1 / rayD.y)) := by
    rw [hinvy, fscale_fin, fscale_fin, cppMin_fin_fin]
  have hqz : cppMin (fscale (t0.z - rayO.z) (finv rayD.z))
      (fscale (t1.z - rayO.z) (finv rayD.z)) =
      FVal.fin (if (t1.z - rayO.z) * (1 / rayD.z) < (t0.z - rayO.z) * (1 / rayD.z)
        then (t1.z - rayO.z) * (1 / rayD.z) else (t0.z - rayO.z) * (1 / rayD.z)) := by
    rw [hinvz, fscale_fin, fscale_fin, cppMin_fin_fin]
  have hfy : cppMax (fscale (t0.y - rayO.y) (finv rayD.y))
      (fscale (t1.y - rayO.y) (finv rayD.y)) =
      FVal.fin (if (t0.y - rayO.y) * (1 / rayD.y) < (t1.y - rayO.y) * (1 / rayD.y)
        then (t1.y - rayO.y) * (1 / rayD.y) else (t0.y - rayO.y) * (1 / rayD.y)) := by
    rw [hinvy, fscale_fin, fscale_fin, cppMax_fin_fin]
  have hfz : cppMax (fscale (t0.z - rayO.z) (finv rayD.z))
      (fscale (t1.z - rayO.z) (finv rayD.z)) =
      FVal.fin (if (t0.z - rayO.z) * (1 / rayD.z) < (t1.z - rayO.z) * (1 / rayD.z)
        then (t1.z - rayO.z) * (1 / rayD.z) else (t0.z - rayO.z) * (1 / rayD.z)) := by
    rw [hinvz, fscale_fin, fscale_fin, cppMax_fin_fin]
  simp only [intersectBox, slabNear, slabFar]
  rw [hnx, hfx, hqy, hqz, hfy, hfz]
  rfl

theorem claim4_witness :
    finv ((⟨0, 1, 1⟩ : Vec3)).x = FVal.pinf ∧
    intersectBox ⟨0, 0, 0⟩ ⟨1, 1, 1⟩ ⟨1 / 2, 0, 0⟩ ⟨0, 1, 1⟩ =
      ⟨true, FVal.fin 0, FVal.fin 1⟩ := by
  have h := (claim4_slab_method ⟨0, 0, 0⟩ ⟨1, 1, 1⟩ ⟨1 / 2, 0, 0⟩ ⟨0, 1, 1⟩).2 rfl
  refine ⟨h.1, ?_⟩
  rw [h.2 (by norm_num) (by norm_num) (by norm_num) (by norm_num)]
  norm_num [slabNear, slabFar, finv, cppMin, cppMax]

theorem Vec3.dot_comm (a b : Vec3) : Vec3.dot a b = Vec3.dot b a := by
  simp only [Vec3.dot]
  ring

/-- C7, counterexample: the volumetric renderer's camera does not keep its
stored basis unit length — with fov 90 and aspect 2, the stored `right`
vector has length `tan(45 deg) * 2 = 2`. -/
theorem claim7_counterexample :
    Vec3.length ((mkCameraV ⟨0, 0, 0⟩ ⟨0, 0, -1⟩ ⟨0, 1, 0⟩ 90 2).right) ≠ 1 := by
  have htan : Real.tan ((90 : ℝ) * (1 / 2) * Real.pi / 180) = 1 := by
    rw [show (90 : ℝ) * (1 / 2) * Real.pi / 180 = Real.pi / 4 by ring]
    exact Real.tan_pi_div_four
  have hfwd : Vec3.normalize ((⟨0, 0, -1⟩ : Vec3) - ⟨0, 0, 0⟩) = (⟨0, 0, -1⟩ : Vec3) := by
    ext <;> simp [Vec3.normalize, Vec3.length]
  have hcross : Vec3.cross (⟨0, 0, -1⟩ : Vec3) (⟨0, 1, 0⟩ : Vec3) = (⟨1, 0, 0⟩ : Vec3) := by
    ext <;> simp [Vec3.cross]
  have hnorm : Vec3.normalize (⟨1, 0, 0⟩ : Vec3) = (⟨1, 0, 0⟩ : Vec3) := by
    ext <;> simp [Vec3.normalize, Vec3.length]
  have hlen : Vec3.length (⟨1, 0, 0⟩ : Vec3) = 1 := by
    simp [Vec3.length]
  have hr : (mkCameraV ⟨0, 0, 0⟩ ⟨0, 0, -1⟩ ⟨0, 1, 0⟩ 90 2).right =
      (⟨1, 0, 0⟩ : Vec3) * ((1 : ℝ) * 2) := by
    simp only [mkCameraV]
    rw [hfwd, hcross, hnorm, htan]
  rw [hr, Vec3.length_smul, hlen]
  norm_num

/-- C7, amended: for non-degenerate inputs, Camera.h's `updateVectors`
produces a mutually orthogonal, unit-length basis; the volumetric
renderer's camera produces a mutually orthogonal basis with unit `forward`
but stores `right` and `up` pre-scaled by `tanFov * aspect` and `tanFov`,
so they are not unit length in general. -/
theorem claim7_camera_basis (pos lookAt upVec : Vec3) (fov aspect : ℝ)
    (h1 : lookAt - pos ≠ (⟨0, 0, 0⟩ : Vec3))
    (h2 : Vec3.cross (Vec3.normalize (lookAt - pos)) upVec ≠ (⟨0, 0, 0⟩ : Vec3)) :
    (Vec3.dot (updateVectors pos lookAt upVec).1 (updateVectors pos lookAt upVec).2.1 = 0 ∧
     Vec3.dot (updateVectors pos lookAt upVec).1 (updateVectors pos lookAt upVec).2.2 = 0 ∧
     Vec3.dot (updateVectors pos lookAt upVec).2.1 (updateVectors pos lookAt upVec).2.2 = 0 ∧
     (updateVectors pos lookAt upVec).1.length = 1 ∧
     (updateVectors pos lookAt upVec).2.1.length = 1 ∧
     (updateVectors pos lookAt upVec).2.2.length = 1) ∧
    (Vec3.dot (mkCameraV pos lookAt upVec fov aspect).forward
        (mkCameraV pos lookAt upVec fov aspect).right = 0 ∧
     Vec3.dot (mkCameraV pos lookAt upVec fov aspect).forward
        (mkCameraV pos lookAt upVec fov aspect).up = 0 ∧
     Vec3.dot (mkCameraV pos lookAt upVec fov aspect).right
        (mkCameraV pos lookAt upVec fov aspect).up = 0 ∧
     (mkCameraV pos lookAt upVec fov aspect).forward.length = 1 ∧
     (mkCameraV pos lookAt upVec fov aspect).right.length =
       |Real.tan (fov * (1 / 2) * Real.pi / 180) * aspect| ∧
     (mkCameraV pos lookAt upVec fov aspect).up.length =
       |Real.tan (fov * (1 / 2) * Real.pi / 180)|) := by
  simp only [updateVectors, mkCameraV]
  set f := Vec3.normalize (lookAt - pos) with hfdef
  set r := Vec3.normalize (Vec3.cross f upVec) with hrdef
  set u := Vec3.normalize (Vec3.cross f r) with hudef
  set w := Vec3.normalize (Vec3.cross r f) with hwdef
  have hf1 : f.length = 1 := Vec3.length_normalize _ h1
  have hr1 : r.length = 1 := by
    rw [hrdef]
    exact Vec3.length_normalize _ h2
  have hfr : Vec3.dot f r = 0 := by
    rw [hrdef, Vec3.dot_normalize_right, Vec3.dot_cross_left, zero_div]
  have hff : Vec3.dot f f = 1 := Vec3.dot_self_of_length_one f hf1
  have hrr : Vec3.dot r r = 1 := Vec3.dot_self_of_length_one r hr1
  have hu0 : Vec3.dot (Vec3.cross f r) (Vec3.cross f r) = 1 := by
    rw [Vec3.cross_dot_self, hff, hrr, hfr]
    norm_num
  have hu0ne : Vec3.cross f r ≠ (⟨0, 0, 0⟩ : Vec3) := by
    intro h
    rw [h] at hu0
    simp [Vec3.dot] at hu0
  have hu1 : u.length = 1 := by
    rw [hudef]
    exact Vec3.length_normalize _ hu0ne
  have hfu : Vec3.dot f u = 0 := by
    rw [hudef, Vec3.dot_normalize_right, Vec3.dot_cross_left, zero_div]
  have hru : Vec3.dot r u = 0 := by
    rw [hudef, Vec3.dot_normalize_right, Vec3.dot_cross_right, zero_div]
  have hw0 : Vec3.dot (Vec3.cross r f) (Vec3.cross r f) = 1 := by
    rw [Vec3.cross_dot_self, hff, hrr, Vec3.dot_comm r f, hfr]
    norm_num
  have hw0ne : Vec3.cross r f ≠ (⟨0, 0, 0⟩ : Vec3) := by
    intro h
    rw [h] at hw0
    simp [Vec3.dot] at hw0
  have hw1 : w.length = 1 := by
    rw [hwdef]
    exact Vec3.length_normalize _ hw0ne
  have hfw : Vec3.dot f w = 0 := by
    rw [hwdef, Vec3.dot_normalize_right, Vec3.dot_cross_right, zero_div]
  have hrw : Vec3.dot r w = 0 := by
    rw [hwdef, Vec3.dot_normalize_right, Vec3.dot_cross_left, zero_div]
  refine ⟨⟨hfr, hfw, hrw, hf1, hr1, hw1⟩, ?_, ?_, ?_, hf1, ?_, ?_⟩
  · rw [Vec3.dot_smul_right, hfr, zero_mul]
  · rw [Vec3.dot_smul_right, hfu, zero_mul]
  · rw [Vec3.dot_smul_left, Vec3.dot_smul_right, hru, zero_mul, zero_mul]
  · rw [Vec3.length_smul, hr1, one_mul]
  · rw [Vec3.length_smul, hu1, one_mul]

theorem claim7_witness :
    ((updateVectors ⟨0, 0, 0⟩ ⟨0, 0, -1⟩ ⟨0, 1, 0⟩).1.length = 1 ∧
      (updateVectors ⟨0, 0, 0⟩ ⟨0, 0, -1⟩ ⟨0, 1, 0⟩).2.1.length = 1 ∧
      (updateVectors ⟨0, 0, 0⟩ ⟨0, 0, -1⟩ ⟨0, 1, 0⟩).2.2.length = 1) ∧
    Vec3.dot (mkCameraV ⟨0, 0, 0⟩ ⟨0, 0, -1⟩ ⟨0, 1, 0⟩ 90 2).forward
      (mkCameraV ⟨0, 0, 0⟩ ⟨0, 0, -1⟩ ⟨0, 1, 0⟩ 90 2).right = 0 ∧
    (mkCameraV ⟨0, 0, 0⟩ ⟨0, 0, -1⟩ ⟨0, 1, 0⟩ 90 2).right.length =
      |Real.tan ((90 : ℝ) * (1 / 2) * Real.pi / 180) * 2| := by
  have hsub : (⟨0, 0, -1⟩ : Vec3) - (⟨0, 0, 0⟩ : Vec3) = (⟨0, 0, -1⟩ : Vec3) := by
    ext <;> simp
  have h1 : (⟨0, 0, -1⟩ : Vec3) - (⟨0, 0, 0⟩ : Vec3) ≠ (⟨0, 0, 0⟩ : Vec3) := by
    rw [hsub]
    intro h
    have := congrArg Vec3.z h
    norm_num at this
  have hfwd : Vec3.normalize ((⟨0, 0, -1⟩ : Vec3) - ⟨0, 0, 0⟩) = (⟨0, 0, -1⟩ : Vec3) := by
    ext <;> simp [Vec3.normalize, Vec3.length]
  have h2 : Vec3.cross (Vec3.normalize ((⟨0, 0, -1⟩ : Vec3) - ⟨0, 0, 0⟩)) (⟨0, 1, 0⟩ : Vec3) ≠
      (⟨0, 0, 0⟩ : Vec3) := by
    rw [hfwd]
    intro h
    have := congrArg Vec3.x h
    simp [Vec3.cross] at this
  have h := claim7_camera_basis ⟨0, 0, 0⟩ ⟨0, 0, -1⟩ ⟨0, 1, 0⟩ 90 2 h1 h2
  exact ⟨⟨h.1.2.2.2.1, h.1.2.2.2.2.1, h.1.2.2.2.2.2⟩, h.2.1, h.2.2.2.2.2.1⟩

theorem toByte_le (c : ℝ) : toByte c ≤ 255 := by
  have h : min (c * 255) 255 ≤ (255 : ℝ) := min_le_right _ _
  have h2 := Int.floor_le_floor h
  rwa [show ((255 : ℝ)) = ((255 : ℤ) : ℝ) by norm_num, Int.floor_intCast] at h2

theorem toByte_one : toByte 1 = 255 := by
  unfold toByte
  rw [show min ((1 : ℝ) * 255) 255 = ((255 : ℤ) : ℝ) by norm_num, Int.floor_intCast]

theorem toByte_zero : toByte 0 = 0 := by
  unfold toByte
  rw [show min ((0 : ℝ) * 255) 255 = ((0 : ℤ) : ℝ) by norm_num, Int.floor_intCast]

/-- C8: the binary PPM writer emits the header `"P6\n<w> <h>\n255\n"`
followed by one RGB byte triplet per pixel in buffer order (so a row-major
top-to-bottom buffer yields row-major top-to-bottom bytes), each channel
clamped at 255; a 2x2 pure-red buffer gives header `"P6\n2 2\n255\n"` and
first triplet (255, 0, 0).  The slice writer shares the same header. -/
theorem claim8_ppm_writer :
    (∀ (pixels : List Vec3) (w h : ℕ),
      saveToPPM pixels w h = (ppmHeader w h, ppmPayload pixels)) ∧
    (∀ (c : Vec3) (rest : List Vec3),
      ppmPayload (c :: rest) = toByte c.x :: toByte c.y :: toByte c.z :: ppmPayload rest) ∧
    (∀ pixels : List Vec3, (ppmPayload pixels).length = 3 * pixels.length) ∧
    (∀ (pixels : List Vec3) (v : ℤ), v ∈ ppmPayload pixels → v ≤ 255) ∧
    (∀ (pixels : List (ℕ × ℕ × ℕ)) (w h : ℕ),
      (saveSliceToPPM pixels w h).1 = ppmHeader w h) ∧
    ppmHeader 2 2 = "P6\n2 2\n255\n" ∧
    (saveToPPM (List.replicate 4 ⟨1, 0, 0⟩) 2 2).2.take 3 = [255, 0, 0] := by
  have hcons : ∀ (c : Vec3) (rest : List Vec3),
      ppmPayload (c :: rest) = toByte c.x :: toByte c.y :: toByte c.z :: ppmPayload rest :=
    fun c rest => rfl
  refine ⟨fun pixels w h => rfl, hcons, ?_, ?_, fun pixels w h => rfl, by rfl, ?_⟩
  · intro pixels
    induction pixels with
    | nil => rfl
    | cons c rest ih =>
      rw [hcons, List.length_cons]
      simp only [List.length_cons]
      omega
  · intro pixels v hv
    simp only [ppmPayload, List.mem_flatten, List.mem_map] at hv
    obtain ⟨l, ⟨c, _, hc⟩, hvl⟩ := hv
    rw [← hc] at hvl
    simp only [List.mem_cons, List.not_mem_nil, or_false] at hvl
    rcases hvl with h | h | h <;> rw [h] <;> exact toByte_le _
  · rw [show List.replicate 4 (⟨1, 0, 0⟩ : Vec3) =
      [⟨1, 0, 0⟩, ⟨1, 0, 0⟩, ⟨1, 0, 0⟩, ⟨1, 0, 0⟩] from rfl]
    show (ppmPayload _).take 3 = _
    rw [hcons]
    simp only [List.take]
    rw [toByte_one, toByte_zero]

theorem claim8_witness :
    ppmHeader 2 2 = "P6\n2 2\n255\n" ∧ (255 : ℤ) ≤ 255 :=
  ⟨claim8_ppm_writer.2.2.2.2.2.1,
   claim8_ppm_writer.2.2.2.1 [⟨1, 0, 0⟩] 255
     (by simp [ppmPayload, toByte_one, toByte_zero])⟩

/-- C9: the CLI accepts exactly one positional argument (`argc = 2`
counting the program name): a wrong argument count prints the usage line
and exits with status 1 having produced no output file; an exception in
the load/render body prints `Error: ...` to the error stream and exits
with status 1; success exits with status 0 and prints the output
filename message. -/
theorem claim9_cli (args : List String) (body : Except String Unit)
    (soFar : List String × List String) :
    (args.length ≠ 2 →
      mainModel args body soFar =
        ⟨1, ["Usage: " ++ args.headD "" ++ " <vdb_file>"], [], []⟩) ∧
    (args.length = 2 → ∀ e, body = Except.error e →
      (mainModel args body soFar).exitCode = 1 ∧
      (mainModel args body soFar).err = ["Error: " ++ e]) ∧
    (args.length = 2 → body = Except.ok () →
      mainModel args body soFar =
        ⟨0, ["Rendered image saved to volume_render.ppm"], [], ["volume_render.ppm"]⟩) := by
  refine ⟨fun h => ?_, fun h e he => ?_, fun h hb => ?_⟩
  · simp [mainModel, h]
  · subst he
    constructor <;> simp [mainModel, h]
  · subst hb
    simp [mainModel, h]

theorem claim9_witness :
    mainModel ["prog"] (Except.ok ()) ([], []) =
      ⟨1, ["Usage: " ++ ["prog"].headD "" ++ " <vdb_file>"], [], []⟩ ∧
    ((mainModel ["a", "b"] (Except.error "boom") ([], [])).exitCode = 1 ∧
      (mainModel ["a", "b"] (Except.error "boom") ([], [])).err = ["Error: " ++ "boom"]) ∧
    mainModel ["a", "b"] (Except.ok ()) ([], []) =
      ⟨0, ["Rendered image saved to volume_render.ppm"], [], ["volume_render.ppm"]⟩ :=
  ⟨(claim9_cli ["prog"] (Except.ok ()) ([], [])).1 (by simp),
   (claim9_cli ["a", "b"] (Except.error "boom") ([], [])).2.1 rfl "boom" rfl,
   (claim9_cli ["a", "b"] (Except.ok ()) ([], [])).2.2 rfl rfl⟩

/-- C10: out-of-range `setPixel` leaves the whole buffer unchanged and
signals nothing, and out-of-range `getPixel` leaves its out-parameters
unmodified; in range, `setPixel` stores each channel clamped to [0,1] at
write time, while `getPixel` returns the stored values without clamping. -/
theorem claim10_image_pixel_access (img : Image) (x y : ℤ) (r g b r0 g0 b0 : ℝ) :
    (¬(0 ≤ x ∧ x < img.width ∧ 0 ≤ y ∧ y < img.height) →
      img.setPixel x y r g b = img ∧
      img.getPixel x y r0 g0 b0 = (r0, g0, b0)) ∧
    ((0 ≤ x ∧ x < img.width ∧ 0 ≤ y ∧ y < img.height) →
      ((img.setPixel x y r g b).red y x = clamp01 r ∧
       (img.setPixel x y r g b).green y x = clamp01 g ∧
       (img.setPixel x y r g b).blue y x = clamp01 b) ∧
      img.getPixel x y r0 g0 b0 = (img.red y x, img.green y x, img.blue y x)) := by
  constructor
  · intro h
    constructor
    · simp [Image.setPixel, h]
    · simp [Image.getPixel, h]
  · intro h
    refine ⟨⟨?_, ?_, ?_⟩, ?_⟩ <;> simp [Image.setPixel, Image.getPixel, h]

/-- An all-black 2x2 image buffer. -/
def testImage : Image := ⟨2, 2, fun _ _ => 0, fun _ _ => 0, fun _ _ => 0⟩

theorem claim10_witness :
    (Image.setPixel testImage 5 0 (3 / 2) (1 / 2) (1 / 2) = testImage ∧
      Image.getPixel testImage 5 0 (3 / 2) (1 / 4) (1 / 8) = (3 / 2, 1 / 4, 1 / 8)) ∧
    (((Image.setPixel testImage 1 1 (3 / 2) (1 / 2) (-1)).red 1 1 = clamp01 (3 / 2) ∧
      (Image.setPixel testImage 1 1 (3 / 2) (1 / 2) (-1)).green 1 1 = clamp01 (1 / 2) ∧
      (Image.setPixel testImage 1 1 (3 / 2) (1 / 2) (-1)).blue 1 1 = clamp01 (-1)) ∧
     Image.getPixel testImage 1 1 9 9 9 =
       (testImage.red 1 1, testImage.green 1 1, testImage.blue 1 1)) := by
  have hout : ¬((0 : ℤ) ≤ 5 ∧ (5 : ℤ) < testImage.width ∧ (0 : ℤ) ≤ 0 ∧
      (0 : ℤ) < testImage.height) := by
    intro hc
    have := hc.2.1
    simp only [testImage] at this
    norm_num at this
  have hin : (0 : ℤ) ≤ 1 ∧ (1 : ℤ) < testImage.width ∧ (0 : ℤ) ≤ 1 ∧
      (1 : ℤ) < testImage.height := by
    refine ⟨by norm_num, ?_, by norm_num, ?_⟩ <;> · simp only [testImage]; norm_num
  have h1 := (claim10_image_pixel_access testImage 5 0 (3 / 2) (1 / 2) (1 / 2)
    (3 / 2) (1 / 4) (1 / 8)).1 hout
  have h2 := (claim10_image_pixel_access testImage 1 1 (3 / 2) (1 / 2) (-1) 9 9 9).2 hin
  exact ⟨h1, h2⟩

end

end Explosion
